import Mathlib

/-!
# Verification of the agent-mention orchestration pipeline

Shallow embedding of the mention extractor, directive stripper, response-heading
parser, tool-registry builder and mention orchestrator of the `ai-chatbot`
repository (files `mention-agents-plan.md` and
`app/(chat)/transcripts/components/list/transcript-chat-input.tsx`), together
with proofs about the properties stated in the specification.

Strings are modelled as their `List Char` payloads; the JavaScript regular
expressions appearing in the source are embedded by hand, following ECMA-262
matching semantics (leftmost match, greedy/lazy quantifier backtracking,
non-Unicode case canonicalisation restricted to ASCII, which is exact on the
character sets these patterns and inputs use).
-/


/-- `c` is JavaScript whitespace: the ECMAScript WhiteSpace ∪ LineTerminator
code points, the set matched by the regex class `\s` and removed by
`String.prototype.trim`. -/
def isJsWhitespace (c : Char) : Bool :=
  c.toNat == 9 || c.toNat == 10 || c.toNat == 11 || c.toNat == 12 ||
  c.toNat == 13 || c.toNat == 32 || c.toNat == 160 || c.toNat == 0x1680 ||
  (0x2000 ≤ c.toNat && c.toNat ≤ 0x200A) || c.toNat == 0x2028 ||
  c.toNat == 0x2029 || c.toNat == 0x202F || c.toNat == 0x205F ||
  c.toNat == 0x3000 || c.toNat == 0xFEFF

/-- ASCII digit `0-9`. -/
def isAsciiDigit (c : Char) : Bool := 48 ≤ c.toNat && c.toNat ≤ 57

/-- ASCII lowercase letter `a-z`. -/
def isAsciiLower (c : Char) : Bool := 97 ≤ c.toNat && c.toNat ≤ 122

/-- ASCII uppercase letter `A-Z`. -/
def isAsciiUpper (c : Char) : Bool := 65 ≤ c.toNat && c.toNat ≤ 90

/-- Characters matched by the class `[a-z0-9]` under the `i` flag
(non-Unicode canonicalisation makes this exactly ASCII alphanumerics). -/
def isAlnumChar (c : Char) : Bool := isAsciiLower c || isAsciiUpper c || isAsciiDigit c

/-- Characters matched by `\w` : `[A-Za-z0-9_]`. -/
def isWordChar (c : Char) : Bool := isAlnumChar c || c.toNat == 95

/-- Characters matched by the class `[\w-]` (with or without the `i` flag:
the set is closed under case). -/
def isWordOrHyphen (c : Char) : Bool := isWordChar c || c.toNat == 45

/-- Characters matched by the regex-literal class `[\s:\-–—]` used in
`extractAgentMentions` to strip a leading separator run from a prompt
fragment: whitespace, colon, hyphen, en dash, em dash. -/
def isSepChar (c : Char) : Bool :=
  isJsWhitespace c || c.toNat == 58 || c.toNat == 45 ||
    c.toNat == 0x2013 || c.toNat == 0x2014

/-- `String.prototype.toLowerCase` restricted to the characters that can occur
in a matched slug (`[A-Za-z0-9_-]`), where it coincides with ASCII lowering. -/
def toLowerChar (c : Char) : Char :=
  if isAsciiUpper c then Char.ofNat (c.toNat + 32) else c

/-- ECMAScript non-Unicode `Canonicalize` restricted to ASCII: uppercase the
ASCII lowercase letters.  Used for case-insensitive (`i` flag) literal
matching; exact on ASCII and the identity elsewhere, matching the blocking
rule that forbids non-ASCII characters canonicalising to ASCII. -/
def canonChar (c : Char) : Char :=
  if isAsciiLower c then Char.ofNat (c.toNat - 32) else c

/-- Case-insensitive character comparison under the `i` flag. -/
def ciEq (a b : Char) : Bool := canonChar a == canonChar b

/-- `String.prototype.trimStart` on a character list. -/
def jsTrimStartList (cs : List Char) : List Char := cs.dropWhile isJsWhitespace

/-- `String.prototype.trim` on a character list. -/
def jsTrimList (cs : List Char) : List Char :=
  ((cs.dropWhile isJsWhitespace).reverse.dropWhile isJsWhitespace).reverse

/-- `String.prototype.trim`. -/
def jsTrim (s : String) : String := String.mk (jsTrimList s.data)

/-- Take at most `n` leading characters satisfying `p` (the greedy bounded
quantifier `{0,n}` on a character class, with nothing after it that could
force backtracking). -/
def takeUpTo (p : Char → Bool) : Nat → List Char → List Char
  | 0, _ => []
  | _, [] => []
  | n + 1, c :: cs => if p c then c :: takeUpTo p n cs else []

/-- `input.slice(a, b)` on a character list (`a ≤ b` in all uses below). -/
def sliceList (cs : List Char) (a b : Nat) : List Char := (cs.drop a).take (b - a)

/-- One step of the global scan for `/@([a-z0-9][\w-]{0,63})/gi`
(`String.prototype.matchAll`): returns the list of `(matchIndex, capturedSlug)`
pairs, leftmost first, each search resuming at the end of the previous match.
`fuel` bounds the recursion; `fuel = cs.length` always suffices because every
step consumes at least one character. -/
def mentionScan : Nat → List Char → Nat → List (Nat × List Char)
  | 0, _, _ => []
  | _ + 1, [], _ => []
  | fuel + 1, c :: rest, pos =>
    if c = '@' then
      match rest with
      | [] => []
      | d :: ds =>
        if isAlnumChar d then
          let tail := takeUpTo isWordOrHyphen 63 ds
          (pos, d :: tail) :: mentionScan fuel (ds.drop tail.length) (pos + 2 + tail.length)
        else
          mentionScan fuel rest (pos + 1)
    else
      mentionScan fuel rest (pos + 1)

/-- All matches of the mention grammar `/@([a-z0-9][\w-]{0,63})/gi` in the
input, as `(index, slug)` pairs in left-to-right order. -/
def mentionMatches (cs : List Char) : List (Nat × List Char) :=
  mentionScan cs.length cs 0

/-- An extracted agent mention: lowercased slug plus the prompt fragment that
follows it.  (`AgentMention` in `lib/types`.) -/
structure AgentMention where
  slug : String
  prompt : String

deriving DecidableEq, Repr

/-- The prompt fragment for a match ending at `promptStart`, extending to
`promptEnd`: slice, strip a leading `[\s:\-–—]+` run, then trim. -/
def promptFragment (cs : List Char) (promptStart promptEnd : Nat) : List Char :=
  jsTrimList ((sliceList cs promptStart promptEnd).dropWhile isSepChar)

/-- The per-match mapping of `extractAgentMentions` (the body of the `.map`
callback): trims the captured slug, drops the entry if the trimmed slug is
empty, lowercases it, and computes the prompt fragment up to the next match
(or the end of the input). -/
def extractMapCode (cs : List Char) : List (Nat × List Char) → List (Option AgentMention)
  | [] => []
  | (p, sl) :: rest =>
    (if (jsTrimList sl).isEmpty then
      none
     else
      let promptEnd := match rest with
        | (q, _) :: _ => q
        | [] => cs.length
      some ⟨String.mk ((jsTrimList sl).map toLowerChar),
            String.mk (promptFragment cs (p + 1 + sl.length) promptEnd)⟩)
      :: extractMapCode cs rest

/-- `extractAgentMentions` from `lib/ai/mention-agents.ts`: scan for all
mention matches, map each to a slug/prompt pair, drop `null` entries. -/
def extractAgentMentions (input : String) : List AgentMention :=
  if input = "" then []
  else
    let ms := mentionMatches input.data
    if ms.length = 0 then []
    else (extractMapCode input.data ms).filterMap id

/-- The extraction contract as the specification states it: for the `k`
non-overlapping matches of the mention grammar, in left-to-right order, entry
`i` carries the lowercased matched slug and the substring of the input from
the end of match `i` to the start of match `i+1` (or the end of the input),
with a leading separator run stripped and the result trimmed. -/
def specMentionList (cs : List Char) : List (Nat × List Char) → List AgentMention
  | [] => []
  | (p, sl) :: rest =>
    let promptEnd := match rest with
      | (q, _) :: _ => q
      | [] => cs.length
    ⟨String.mk (sl.map toLowerChar),
     String.mk (promptFragment cs (p + 1 + sl.length) promptEnd)⟩
      :: specMentionList cs rest

/-- The specification-side extraction function (built from the words of the
spec, to be compared with `extractAgentMentions`, built from the source). -/
def specExtractAgentMentions (input : String) : List AgentMention :=
  specMentionList input.data (mentionMatches input.data)

/-! ## `stripAgentDirectiveText`

The source builds the directive pattern inside a JavaScript *template
literal*:

  new RegExp(`(?!^)@${escapeRegExp(slug)}[\s:\-–—]+${escapeRegExp(prompt)}`, 'i')

In a template literal the escape `\s` denotes the plain letter `s` and `\-`
the plain `-`, so the pattern source handed to `RegExp` is `[s:-–—]+`: a
character class containing `s`, the *range* `:` (U+003A) to `–` (U+2013), and
`—` (U+2014).  Since `s` (U+0073) lies inside that range, the compiled class
is exactly the code-point interval U+003A–U+2014 — it does *not* contain any
whitespace.  The `i`-flag canonicalisation adds nothing outside the interval.
The slug and prompt chunks pass through `escapeRegExp`, so they match
literally (case-insensitively); `(?!^)` only forbids a match at offset 0
(no `m` flag), and without the `g` flag `String.prototype.replace` rewrites
only the leftmost match. -/

/-- The character class `[s:-–—]` that the template literal actually compiles
to: code points U+003A through U+2014. -/
def compiledDirSepChar (c : Char) : Bool := 58 ≤ c.toNat && c.toNat ≤ 0x2014

/-- Match a literal pattern chunk case-insensitively against the head of the
input, returning the rest of the input on success. -/
def stripLitCI : List Char → List Char → Option (List Char)
  | [], rest => some rest
  | _ :: _, [] => none
  | p :: ps, c :: cs => if ciEq p c then stripLitCI ps cs else none

/-- Backtracking for the greedy `[s:-–—]+` run: try `k` separator characters,
largest first (at least one), such that the literal prompt matches right
after.  `maxRun` is the length of the maximal separator run. -/
def greedySepSplit (prompt r2 : List Char) : Nat → Option Nat
  | 0 => none
  | k + 1 =>
    match stripLitCI prompt (r2.drop (k + 1)) with
    | some _ => some (k + 1)
    | none => greedySepSplit prompt r2 k

/-- Attempt to match `@slug[s:-–—]+prompt` (case-insensitively) at the head of
`cs`; returns the length of the match. -/
def matchDirAt (cs slug prompt : List Char) : Option Nat :=
  match cs with
  | [] => none
  | c :: r1 =>
    if c = '@' then
      match stripLitCI slug r1 with
      | none => none
      | some r2 =>
        match greedySepSplit prompt r2 (r2.takeWhile compiledDirSepChar).length with
        | none => none
        | some k => some (1 + slug.length + k + prompt.length)
    else none

/-- Leftmost match of the directive pattern at an offset `≥ 1` (the `(?!^)`
lookahead rejects offset 0), as `(offset, length)`. -/
def findDirFrom (slug prompt : List Char) : Nat → List Char → Option (Nat × Nat)
  | _, [] => none
  | j, c :: rest =>
    if j = 0 then findDirFrom slug prompt 1 rest
    else
      match matchDirAt (c :: rest) slug prompt with
      | some len => some (j, len)
      | none => findDirFrom slug prompt (j + 1) rest

/-- One iteration of the `mentions.forEach` body: skip mentions with an empty
prompt, otherwise replace the first non-leading directive occurrence with the
bare `@slug`. -/
def stripOneMention (cs : List Char) (m : AgentMention) : List Char :=
  if m.prompt = "" then cs
  else
    match findDirFrom m.slug.data m.prompt.data 0 cs with
    | none => cs
    | some (j, len) => cs.take j ++ ('@' :: m.slug.data) ++ cs.drop (j + len)

/-- `stripAgentDirectiveText` from `lib/ai/mention-agents.ts`: for each
mention with a non-empty prompt, replace the first non-leading
`@slug<compiled-separator-run><prompt>` occurrence with `@slug`, then trim. -/
def stripAgentDirectiveText (input : String) (mentions : List AgentMention) : String :=
  if mentions.isEmpty then input
  else String.mk (jsTrimList (mentions.foldl stripOneMention input.data))

/-! ## `parseAgentResponseText`

Embeds `/^###\s+Response from @([a-z0-9][\w-]*)(?: \((.+?)\))?/i` applied to
the `trimStart`-ed text.  The greedy `[\w-]*` cannot interact with the
optional name group (a space is not a word character), the greedy `\s+`
cannot backtrack usefully (its class is disjoint from the following literal),
and the lazy `(.+?)` stops at the first `)` reachable after consuming at
least one non-line-terminator character. -/

/-- Characters matched by `.` (no `s` flag): everything except the
LineTerminator code points. -/
def isDotChar (c : Char) : Bool :=
  !(c.toNat == 10 || c.toNat == 13 || c.toNat == 0x2028 || c.toNat == 0x2029)

/-- Result of `parseAgentResponseText`. -/
structure ParsedAgentResponse where
  slug : String
  agentName : Option String
  body : String

deriving DecidableEq, Repr

/-- The optional `(?: \((.+?)\))?` group: on `" ("` followed by a lazy
minimal non-empty dot-run and `")"`, return the captured name and the rest;
otherwise capture nothing and leave the input unconsumed. -/
def parseNameGroup : List Char → Option (List Char) × List Char
  | ' ' :: '(' :: c0 :: rest =>
    if isDotChar c0 then
      if (rest.takeWhile (fun c => !(c == ')'))).all isDotChar then
        match rest.drop (rest.takeWhile (fun c => !(c == ')'))).length with
        | ')' :: r => (some (c0 :: rest.takeWhile (fun c => !(c == ')'))), r)
        | _ => (none, ' ' :: '(' :: c0 :: rest)
      else (none, ' ' :: '(' :: c0 :: rest)
    else (none, ' ' :: '(' :: c0 :: rest)
  | r => (none, r)

/-- The literal chunk `Response from @` of the heading pattern. -/
def responseFromLit : List Char := "Response from @".data

/-- Capture the slug (`[a-z0-9][\w-]*`, greedy) and then the optional name
group; `match[0]` ends after the slug or after the closing parenthesis, and
the body is the remainder, `trimStart`-ed. -/
def parseSlugRest : List Char → Option ParsedAgentResponse
  | [] => none
  | c :: r3 =>
    if isAlnumChar c then
      some ⟨String.mk ((c :: r3.takeWhile isWordOrHyphen).map toLowerChar),
            (parseNameGroup (r3.drop (r3.takeWhile isWordOrHyphen).length)).1.map String.mk,
            String.mk
              (jsTrimStartList
                (parseNameGroup (r3.drop (r3.takeWhile isWordOrHyphen).length)).2)⟩
    else none

/-- After the `###`: require a non-empty `\s+` run, then the literal
`Response from @` (case-insensitively), then slug and optional name. -/
def parseAfterHash (r0 : List Char) : Option ParsedAgentResponse :=
  if (r0.takeWhile isJsWhitespace).isEmpty then none
  else
    match stripLitCI responseFromLit (r0.dropWhile isJsWhitespace) with
    | none => none
    | some r2 => parseSlugRest r2

/-- Anchored match of the heading pattern. -/
def parseHeading : List Char → Option ParsedAgentResponse
  | '#' :: '#' :: '#' :: r0 => parseAfterHash r0
  | _ => none

/-- `parseAgentResponseText` from `lib/ai/mention-agents.ts`. -/
def parseAgentResponseText (text : String) : Option ParsedAgentResponse :=
  if text = "" then none
  else parseHeading (jsTrimStartList text.data)

/-- Lowercase word/hyphen characters: what a POST-normalised slug consists
of after its leading character. -/
def lowerWordOrHyphen (c : Char) : Bool :=
  isAsciiLower c || isAsciiDigit c || c.toNat == 95 || c.toNat == 45

/-- A slug as normalised by `POST`: the schema grammar
`^[a-z0-9][\w-]{0,63}$/i` after lowercasing (the length bound is not needed
below and is omitted, which only strengthens the statements). -/
def isNormalizedSlug (s : String) : Bool :=
  match s.data with
  | [] => false
  | c :: cs => (isAsciiLower c || isAsciiDigit c) && cs.all lowerWordOrHyphen

/-- An agent name that survives the heading round-trip: non-empty, containing
no closing parenthesis and no line terminator. -/
def isSafeAgentName (s : String) : Bool :=
  !(s == "") && s.data.all (fun c => isDotChar c && !(c == ')'))

/-! ## Data model of the mention orchestrator (`handleAgentMentions`) -/

/-- A persisted agent record (the `Agent` entity, read-only for the core). -/
structure AgentRecord where
  id : String
  slug : String
  name : String
  agentPrompt : Option String
  modelId : Option String
  vectorStoreId : Option String
  isPublic : Bool
  userId : String

deriving DecidableEq, Repr

/-- A row returned by `getVectorStoreFilesByUser`. -/
structure VectorStoreFile where
  vectorStoreFileId : String
  fileName : String
  fileSizeBytes : Option Int

deriving DecidableEq, Repr

/-- A knowledge-file summary handed to the system prompt context. -/
structure KnowledgeFile where
  id : String
  name : String
  sizeBytes : Option Int

deriving DecidableEq, Repr

/-- JavaScript truthiness of an optional string (`undefined`/`null`/`""` are
falsy). -/
def optTruthy : Option String → Bool
  | none => false
  | some s => !(s == "")

/-- The tool registry built by `createToolRegistry`: the tool-name map (in
JavaScript object insertion order), the set of non-configurable ("pinned")
tool ids, and whether the provider-native `file_search` tool was
registered. -/
structure ToolRegistry where
  tools : List String
  nonConfigurableToolIds : List String
  fileSearchRegistered : Bool

deriving DecidableEq, Repr

/-- The ten collaborator-backed tools `createToolRegistry` always
registers first. -/
def baseToolNames : List String :=
  ["requestSuggestions", "searchTranscriptsByKeyword", "searchTranscriptsByUser",
   "listAccessibleSlackChannels", "fetchSlackChannelHistory", "getSlackThreadReplies",
   "getBulkSlackHistory", "listGoogleCalendarEvents", "listGmailMessages",
   "getGmailMessageDetails"]

/-- `createToolRegistry` from the chat route: base tools, plus `file_search`
when the provider namespace is `openai` and a vector-store id is present,
plus `get_file_contents` always, plus `getTranscriptDetails` for elevated
roles; `get_file_contents` (and `file_search` when registered) are pinned
exactly when a vector-store id is present. -/
def createToolRegistry (vectorStoreId : Option String) (providerNamespace : String)
    (includeTranscriptDetails : Bool) : ToolRegistry :=
  { tools :=
      baseToolNames ++
        (if providerNamespace == "openai" && optTruthy vectorStoreId
         then ["file_search"] else []) ++
        ["get_file_contents"] ++
        (if includeTranscriptDetails then ["getTranscriptDetails"] else []),
    nonConfigurableToolIds :=
      if optTruthy vectorStoreId then
        "get_file_contents" ::
          (if providerNamespace == "openai" && optTruthy vectorStoreId
           then ["file_search"] else [])
      else [],
    fileSearchRegistered := providerNamespace == "openai" && optTruthy vectorStoreId }

/-- The primary turn's active-tool computation (`POST`): when the caller
supplied no allow-list at all, every available tool is requested; the filter
keeps a tool if it is requested or pinned. -/
def primaryRequestedToolSet (reg : ToolRegistry)
    (requestedActiveTools : Option (List String)) : List String :=
  match requestedActiveTools with
  | none => reg.tools
  | some l => l

def primaryActiveTools (reg : ToolRegistry)
    (requestedActiveTools : Option (List String)) : List String :=
  reg.tools.filter (fun toolId =>
    (primaryRequestedToolSet reg requestedActiveTools).contains toolId ||
      reg.nonConfigurableToolIds.contains toolId)

/-- The agent-mention run's active-tool computation: an absent *or empty*
allow-list means every available tool; after filtering, an empty result
falls back to every available tool. -/
def agentRequestedToolSet (reg : ToolRegistry)
    (requestedActiveTools : Option (List String)) : List String :=
  match requestedActiveTools with
  | some l => if l.length > 0 then l else reg.tools
  | none => reg.tools

/-- The filter the agent run applies before its non-empty fallback: the
allow-list/pinned intersection with the available tools. -/
def agentFilteredTools (reg : ToolRegistry)
    (requestedActiveTools : Option (List String)) : List String :=
  reg.tools.filter (fun toolId =>
    (agentRequestedToolSet reg requestedActiveTools).contains toolId ||
      reg.nonConfigurableToolIds.contains toolId)

def agentActiveTools (reg : ToolRegistry)
    (requestedActiveTools : Option (List String)) : List String :=
  if (agentFilteredTools reg requestedActiveTools).length = 0 then reg.tools
  else agentFilteredTools reg requestedActiveTools

/-- The agent context handed to `systemPrompt` for a mention run. -/
structure AgentPromptContext where
  agentPrompt : String
  agentName : String
  knowledgeFiles : List KnowledgeFile

deriving DecidableEq, Repr

/-- The arguments of the single non-streaming `generateText` invocation of a
mention run. -/
structure GenCall where
  modelId : String
  promptContext : AgentPromptContext
  instruction : String
  tools : List String
  activeTools : List String
  providerNamespace : String
  stepBudget : Nat

deriving DecidableEq, Repr

/-- `buildAgentInstruction`: join the full user message (when non-empty) with
either the mention's focus instruction or the no-instruction fallback. -/
def buildAgentInstruction (userMessage mentionPrompt slug : String) : String :=
  let trimmedPrompt := jsTrim mentionPrompt
  let segments : List String :=
    (if (jsTrim userMessage).length > 0
     then ["Full user message:\n" ++ jsTrim userMessage] else []) ++
    [if trimmedPrompt.length > 0 then
       "Focus on the instruction provided after @" ++ slug ++ ":\n" ++ trimmedPrompt
     else
       "The user referenced @" ++ slug ++ " without additional instructions. Provide a concise, helpful response based on the overall conversation context."]
  String.intercalate "\n\n" segments

deriving instance DecidableEq for Except

/-- The collaborators a mention run suspends on, each able to throw
(`Except.error`), plus deterministic id/timestamp supplies standing in for
`generateUUID`/`new Date()`. -/
structure MentionEnv where
  getAgentBySlug : String → Except Unit (Option AgentRecord)
  getVectorStoreFilesByUser : String → String → Except Unit (List VectorStoreFile)
  generateText : GenCall → Except Unit String
  /-- Modelled from the spec: `getChatModelById` (in `lib/ai/models`, not
  among the excerpted sources) looks an id up in the known chat-model table;
  the orchestrator uses `getChatModelById(id)?.id ?? defaultModelId`. -/
  getChatModelId : String → Option String
  /-- Modelled from the spec: `resolveProviderModelId` (in `lib/ai/models`)
  maps a chat-model id to a provider-qualified id such as `openai/...`; the
  namespace is the segment before the first `/`. -/
  resolveProviderModelId : String → String
  uuidOf : Nat → String
  nowOf : Nat → String

/-- Per-turn request parameters threaded into `handleAgentMentions`. -/
structure TurnParams where
  userId : String
  chatId : String
  defaultModelId : String
  userMessage : String
  isMemberRole : Bool
  requestedActiveTools : Option (List String)

/-- `getChatModelById(agentRecord.modelId ?? '')?.id ?? defaultModelId`. -/
def resolvedModelIdFor (env : MentionEnv) (defaultModelId : String)
    (rec : AgentRecord) : String :=
  (env.getChatModelId (rec.modelId.getD "")).getD defaultModelId

/-- `resolveProviderModelId(modelId).split('/')[0]`. -/
def providerNamespaceFor (env : MentionEnv) (modelId : String) : String :=
  ((env.resolveProviderModelId modelId).splitOn "/").headD ""

/-- The agent's vector-store id is consulted only when the record carries one
*and* the requester owns the record. -/
def derivedAgentVectorStoreId (rec : AgentRecord) (userId : String) : Option String :=
  if optTruthy rec.vectorStoreId && rec.userId == userId then rec.vectorStoreId
  else none

/-- Knowledge-file summaries for the run: listed only under a derived
vector-store id; a thrown listing error is caught locally (logged as a
warning) and yields the empty list. -/
def mentionKnowledgeFiles (env : MentionEnv) (userId : String)
    (rec : AgentRecord) : List KnowledgeFile :=
  match derivedAgentVectorStoreId rec userId with
  | none => []
  | some v =>
    match env.getVectorStoreFilesByUser userId v with
    | .error _ => []
    | .ok files => files.map (fun f => ⟨f.vectorStoreFileId, f.fileName, f.fileSizeBytes⟩)

/-- The registry a mention run builds. -/
def mentionRegistry (env : MentionEnv) (ps : TurnParams) (rec : AgentRecord) : ToolRegistry :=
  createToolRegistry (derivedAgentVectorStoreId rec ps.userId)
    (providerNamespaceFor env (resolvedModelIdFor env ps.defaultModelId rec))
    (!ps.isMemberRole)

/-- The full `generateText` invocation a mention run makes for `rec`. -/
def mentionGenCall (env : MentionEnv) (ps : TurnParams) (m : AgentMention)
    (rec : AgentRecord) : GenCall :=
  let resolvedModelId := resolvedModelIdFor env ps.defaultModelId rec
  let reg := mentionRegistry env ps rec
  { modelId := resolvedModelId
    promptContext :=
      ⟨rec.agentPrompt.getD "", rec.name, mentionKnowledgeFiles env ps.userId rec⟩
    instruction := buildAgentInstruction ps.userMessage (jsTrim m.prompt) m.slug
    tools := reg.tools
    activeTools := agentActiveTools reg ps.requestedActiveTools
    providerNamespace := providerNamespaceFor env resolvedModelId
    stepBudget := 20 }

/-- Terminal status of one mention run. -/
inductive MentionStatus where
  | finished
  | error

deriving DecidableEq, Repr

/-- The trace of one mention run: terminal status, response header pieces and
body, plus the intermediate values the run computed (derived vector-store
id, knowledge files, registry, `generateText` arguments) when it reached
them. -/
structure MentionRun where
  slug : String
  status : MentionStatus
  agentName : Option String
  responseBody : String
  derivedVectorStoreId : Option String
  knowledgeFiles : List KnowledgeFile
  registry : Option ToolRegistry
  execCall : Option GenCall

deriving DecidableEq, Repr

/-- `responseHeader`: `@slug`, extended with ` (name)` when the resolved
record's name is truthy. -/
def mentionHeader (slug : String) (agentName : Option String) : String :=
  match agentName with
  | some n => if n == "" then "@" ++ slug else "@" ++ slug ++ " (" ++ n ++ ")"
  | none => "@" ++ slug

def MentionRun.responseHeader (r : MentionRun) : String :=
  mentionHeader r.slug r.agentName

/-- The transcript text of the run's message: the fixed heading followed by a
blank line and the body. -/
def MentionRun.messageText (r : MentionRun) : String :=
  "### Response from " ++ r.responseHeader ++ "\n\n" ++ r.responseBody

/-- One iteration of the `for (const mention of mentions)` loop body of
`handleAgentMentions`, up to and including computing the response body:
resolve the slug (missing record or foreign private record yield `finished`
rejections), derive the vector store, list knowledge files, build registry
and instruction, invoke `generateText`; any exception thrown by resolution
or execution is caught and converted to the fixed error body with status
`error`, never re-thrown. -/
def runMention (env : MentionEnv) (ps : TurnParams) (m : AgentMention) : MentionRun :=
  match env.getAgentBySlug m.slug with
  | .error _ =>
    { slug := m.slug, status := .error, agentName := none,
      responseBody := "Encountered an error while running @" ++ m.slug ++ ".",
      derivedVectorStoreId := none, knowledgeFiles := [], registry := none,
      execCall := none }
  | .ok none =>
    { slug := m.slug, status := .finished, agentName := none,
      responseBody := "No agent named @" ++ m.slug ++ " is available.",
      derivedVectorStoreId := none, knowledgeFiles := [], registry := none,
      execCall := none }
  | .ok (some rec) =>
    if !rec.isPublic && !(rec.userId == ps.userId) then
      { slug := m.slug, status := .finished, agentName := none,
        responseBody := "You do not have access to @" ++ m.slug ++
          ". Ask the owner to make it public or share it with you.",
        derivedVectorStoreId := none, knowledgeFiles := [], registry := none,
        execCall := none }
    else
      match env.generateText (mentionGenCall env ps m rec) with
      | .error _ =>
        { slug := m.slug, status := .error, agentName := some rec.name,
          responseBody := "Encountered an error while running @" ++ m.slug ++ ".",
          derivedVectorStoreId := derivedAgentVectorStoreId rec ps.userId,
          knowledgeFiles := mentionKnowledgeFiles env ps.userId rec,
          registry := some (mentionRegistry env ps rec),
          execCall := some (mentionGenCall env ps m rec) }
      | .ok text =>
        { slug := m.slug, status := .finished, agentName := some rec.name,
          responseBody :=
            if (jsTrim text).length > 0 then jsTrim text else "No response generated.",
          derivedVectorStoreId := derivedAgentVectorStoreId rec ps.userId,
          knowledgeFiles := mentionKnowledgeFiles env ps.userId rec,
          registry := some (mentionRegistry env ps rec),
          execCall := some (mentionGenCall env ps m rec) }

/-- `true` exactly when the mention's resolution or execution throws (the
exception caught by the per-mention `try`/`catch`); the caught knowledge-file
listing failure is not such an exception. -/
def mentionRaises (env : MentionEnv) (ps : TurnParams) (m : AgentMention) : Bool :=
  match env.getAgentBySlug m.slug with
  | .error _ => true
  | .ok none => false
  | .ok (some rec) =>
    if !rec.isPublic && !(rec.userId == ps.userId) then false
    else
      match env.generateText (mentionGenCall env ps m rec) with
      | .error _ => true
      | .ok _ => false

/-- Status carried by a `data-agent-status` event. -/
inductive EventStatus where
  | started
  | finished
  | error

deriving DecidableEq, Repr

def MentionStatus.toEvent : MentionStatus → EventStatus
  | .finished => .finished
  | .error => .error

/-- A chunk written to the request-scoped event writer by the orchestrator:
a transient `data-agent-status` event or a `data-appendMessage` event
carrying the serialized message. -/
inductive TurnEvent where
  | agentStatus (slug : String) (status : EventStatus) (messageId : Option String)
      (agentName : Option String)
  | appendMessage (messageId : String) (text : String)

deriving DecidableEq, Repr

/-- An agent-attributed assistant `ChatMessage` (single text part). -/
structure OrchChatMessage where
  id : String
  text : String
  createdAt : String

deriving DecidableEq, Repr

/-- The corresponding `DBMessage` row handed to `saveMessages`. -/
structure OrchDbMessage where
  id : String
  chatId : String
  text : String
  createdAt : String

deriving DecidableEq, Repr

/-- Loop state of `handleAgentMentions`: events written so far, the two
accumulating message arrays, and the iteration index (standing in for the
successive `generateUUID()` / `new Date()` calls). -/
structure HandleState where
  events : List TurnEvent
  agentMessages : List OrchChatMessage
  dbMessages : List OrchDbMessage
  idx : Nat

deriving DecidableEq, Repr

/-- One full iteration of the mention loop: write the `started` status,
run the mention, append the constructed message to both arrays, write the
`appendMessage` event and then the terminal status event. -/
def handleStep (env : MentionEnv) (ps : TurnParams) (st : HandleState)
    (m : AgentMention) : HandleState :=
  let run := runMention env ps m
  let mid := env.uuidOf st.idx
  let createdAt := env.nowOf st.idx
  let text := run.messageText
  { events := st.events ++
      [TurnEvent.agentStatus m.slug .started none none,
       TurnEvent.appendMessage mid text,
       TurnEvent.agentStatus m.slug run.status.toEvent (some mid) run.agentName],
    agentMessages := st.agentMessages ++ [⟨mid, text, createdAt⟩],
    dbMessages := st.dbMessages ++ [⟨mid, ps.chatId, text, createdAt⟩],
    idx := st.idx + 1 }

/-- The observable outcome of `handleAgentMentions`: the ordered event
stream, the returned messages, and the `saveMessages` batches it issued. -/
structure HandleResult where
  events : List TurnEvent
  messages : List OrchChatMessage
  saveBatches : List (List OrchDbMessage)

deriving DecidableEq, Repr

/-- `handleAgentMentions`: early-return on an empty mention list, otherwise
process the mentions strictly sequentially and finish with a single batched
`saveMessages` call for all produced messages. -/
def handleAgentMentions (env : MentionEnv) (ps : TurnParams)
    (mentions : List AgentMention) : HandleResult :=
  if mentions.isEmpty then ⟨[], [], []⟩
  else
    let st := mentions.foldl (handleStep env ps) ⟨[], [], [], 0⟩
    ⟨st.events, st.agentMessages,
     if st.dbMessages.isEmpty then [] else [st.dbMessages]⟩

/-- The three events one mention contributes, in order: `started`, the
message append, and exactly one terminal status (`finished` or `error`). -/
def mentionEventBlock (env : MentionEnv) (ps : TurnParams) (idx : Nat)
    (m : AgentMention) : List TurnEvent :=
  let run := runMention env ps m
  [TurnEvent.agentStatus m.slug .started none none,
   TurnEvent.appendMessage (env.uuidOf idx) run.messageText,
   TurnEvent.agentStatus m.slug run.status.toEvent (some (env.uuidOf idx)) run.agentName]

/-- Concatenation of the per-mention event blocks, in mention order. -/
def eventBlocks (env : MentionEnv) (ps : TurnParams) :
    Nat → List AgentMention → List TurnEvent
  | _, [] => []
  | i, m :: ms => mentionEventBlock env ps i m ++ eventBlocks env ps (i + 1) ms

/-- The messages produced per mention, in mention order. -/
def blockMessages (env : MentionEnv) (ps : TurnParams) :
    Nat → List AgentMention → List OrchChatMessage
  | _, [] => []
  | i, m :: ms =>
    ⟨env.uuidOf i, (runMention env ps m).messageText, env.nowOf i⟩ ::
      blockMessages env ps (i + 1) ms

/-- The database rows produced per mention, in mention order. -/
def blockDbMessages (env : MentionEnv) (ps : TurnParams) :
    Nat → List AgentMention → List OrchDbMessage
  | _, [] => []
  | i, m :: ms =>
    ⟨env.uuidOf i, ps.chatId, (runMention env ps m).messageText, env.nowOf i⟩ ::
      blockDbMessages env ps (i + 1) ms

/-- A terminal (`finished`/`error`) status event. -/
def isTerminalEvent : TurnEvent → Bool
  | .agentStatus _ .finished _ _ => true
  | .agentStatus _ .error _ _ => true
  | _ => false

/-- `POST` body normalisation of the incoming `agentMentions`: lowercase each
slug, default the prompt, drop entries whose slug is empty. -/
def normalizeAgentMentions (raw : Option (List AgentMention)) : List AgentMention :=
  match raw with
  | none => []
  | some l =>
    (l.map (fun m => ⟨String.mk (m.slug.data.map toLowerChar), m.prompt⟩)).filter
      (fun m => m.slug.length > 0)

/-- The ordered `saveMessages` calls one completed `POST` turn makes: the
user's incoming message before anything else; the orchestrator's single
mention batch when there are mentions; and the stream `onFinish` write of
the primary turn's streamed messages. -/
def postMessageSaveBatches (env : MentionEnv) (ps : TurnParams)
    (userMsg : OrchDbMessage) (rawMentions : Option (List AgentMention))
    (primaryMessages : List OrchDbMessage) : List (List OrchDbMessage) :=
  [[userMsg]] ++
    (if (normalizeAgentMentions rawMentions).length > 0 then
      (handleAgentMentions env ps (normalizeAgentMentions rawMentions)).saveBatches
     else []) ++
    [primaryMessages]

/-- A public agent record used by concrete scenarios. -/
def sampleAgent : AgentRecord :=
  ⟨"agent-1", "ops", "Ops Bot", some "Be helpful.", none, some "vs-1", true, "owner-1"⟩

/-- Turn parameters used by concrete scenarios. -/
def sampleParams : TurnParams :=
  ⟨"user-1", "chat-1", "chat-model", "hello @ops ship it", false, none⟩

/-- An environment whose model invocation always throws. -/
def envGenError : MentionEnv :=
  { getAgentBySlug := fun s => if s = "ops" then .ok (some sampleAgent) else .ok none
    getVectorStoreFilesByUser := fun _ _ => .ok []
    generateText := fun _ => .error ()
    getChatModelId := fun _ => none
    resolveProviderModelId := fun s => s
    uuidOf := fun i => "msg-" ++ toString i
    nowOf := fun _ => "2026-01-01T00:00:00Z" }

/-- A private agent record owned by a different user. -/
def privateAgent : AgentRecord :=
  ⟨"agent-2", "priv", "Private Bot", none, none, none, false, "owner-2"⟩

/-- An environment resolving `priv` to the foreign private agent and nothing
else; its model invocation succeeds. -/
def envResolve : MentionEnv :=
  { getAgentBySlug := fun s =>
      if s = "priv" then .ok (some privateAgent) else .ok none
    getVectorStoreFilesByUser := fun _ _ => .ok []
    generateText := fun _ => .ok "All done."
    getChatModelId := fun _ => none
    resolveProviderModelId := fun s => s
    uuidOf := fun i => "msg-" ++ toString i
    nowOf := fun _ => "2026-01-01T00:00:00Z" }

/-- A public agent owned by someone else, carrying a vector store with a
non-empty file list. -/
def foreignPublicAgent : AgentRecord :=
  ⟨"agent-3", "docs", "Docs Bot", some "Answer from the docs.", none,
   some "vs-9", true, "owner-3"⟩

/-- Environment resolving `docs` to the foreign public agent; its vector
store is non-empty, so any consultation would be visible in the trace. -/
def envForeign : MentionEnv :=
  { getAgentBySlug := fun s =>
      if s = "docs" then .ok (some foreignPublicAgent) else .ok none
    getVectorStoreFilesByUser := fun _ _ => .ok [⟨"file-1", "handbook.pdf", some 1024⟩]
    generateText := fun _ => .ok "From the docs."
    getChatModelId := fun _ => none
    resolveProviderModelId := fun s => "openai/" ++ s
    uuidOf := fun i => "msg-" ++ toString i
    nowOf := fun _ => "2026-01-01T00:00:00Z" }

/-- The part of the heading after `@slug`: ` (name)` for a truthy name,
nothing otherwise. -/
def headerSuffix : Option String → String
  | some n => if n == "" then "" else " (" ++ n ++ ")"
  | none => ""

/-- A public agent whose name round-trips safely. -/
def namedAgent : AgentRecord :=
  ⟨"agent-5", "ops", "Ops Bot", none, none, none, true, "owner-1"⟩

/-- Environment resolving `ops` to `namedAgent` with a successful model
invocation. -/
def envNamed : MentionEnv :=
  { getAgentBySlug := fun s => if s = "ops" then .ok (some namedAgent) else .ok none
    getVectorStoreFilesByUser := fun _ _ => .ok []
    generateText := fun _ => .ok "Deploy is green."
    getChatModelId := fun _ => none
    resolveProviderModelId := fun s => s
    uuidOf := fun i => "msg-" ++ toString i
    nowOf := fun _ => "2026-01-01T00:00:00Z" }

/-- An agent whose name contains a closing parenthesis. -/
def parenNameAgent : AgentRecord :=
  ⟨"agent-4", "ops", "Ops :)", none, none, none, true, "owner-1"⟩

/-- Environment resolving `ops` to the parenthesis-named agent. -/
def envParenName : MentionEnv :=
  { getAgentBySlug := fun s => if s = "ops" then .ok (some parenNameAgent) else .ok none
    getVectorStoreFilesByUser := fun _ _ => .ok []
    generateText := fun _ => .ok "done"
    getChatModelId := fun _ => none
    resolveProviderModelId := fun s => s
    uuidOf := fun i => "msg-" ++ toString i
    nowOf := fun _ => "2026-01-01T00:00:00Z" }


theorem takeUpTo_all (p : Char → Bool) :
    ∀ (n : Nat) (cs : List Char), (takeUpTo p n cs).all p = true := by
  intro n
  induction n with
  | zero => intro cs; simp [takeUpTo]
  | succ n ih =>
    intro cs
    cases cs with
    | nil => simp [takeUpTo]
    | cons c cs =>
      by_cases h : p c
      · simp [takeUpTo, h, ih]
      · simp [takeUpTo, h]

/-- Every slug produced by the scan is nonempty and consists of word/hyphen
characters. -/
theorem mentionScan_slug_ok :
    ∀ (fuel : Nat) (cs : List Char) (pos : Nat) (p : Nat) (sl : List Char),
      (p, sl) ∈ mentionScan fuel cs pos → sl ≠ [] ∧ sl.all isWordOrHyphen = true := by
  intro fuel
  induction fuel with
  | zero => intro cs pos p sl h; simp [mentionScan] at h
  | succ fuel ih =>
    intro cs pos p sl h
    cases cs with
    | nil => simp [mentionScan] at h
    | cons c rest =>
      cases rest with
      | nil =>
        simp only [mentionScan] at h
        split at h
        · simp at h
        · exact ih _ _ _ _ h
      | cons d ds =>
        simp only [mentionScan] at h
        split at h
        · split at h
          · rw [List.mem_cons] at h
            rcases h with h | h
            · have hsl : sl = d :: takeUpTo isWordOrHyphen 63 ds :=
                congrArg Prod.snd h
              subst hsl
              refine ⟨by simp, ?_⟩
              have hd : isWordOrHyphen d = true := by
                rename_i hal
                simp [isWordOrHyphen, isWordChar, hal]
              simp [hd, takeUpTo_all]
            · exact ih _ _ _ _ h
          · exact ih _ _ _ _ h
        · exact ih _ _ _ _ h

theorem jsTrimList_of_no_ws {cs : List Char}
    (h : cs.all (fun c => !isJsWhitespace c) = true) : jsTrimList cs = cs := by
  unfold jsTrimList
  have h1 : cs.dropWhile isJsWhitespace = cs := by
    cases cs with
    | nil => rfl
    | cons c cs =>
      have := List.all_cons .. ▸ h
      simp only [Bool.and_eq_true, Bool.not_eq_true'] at this
      simp [List.dropWhile_cons, this.1]
  rw [h1]
  have h2 : cs.reverse.dropWhile isJsWhitespace = cs.reverse := by
    cases hrev : cs.reverse with
    | nil => rfl
    | cons c cs' =>
      have hc : c ∈ cs := by
        have : c ∈ cs.reverse := by rw [hrev]; exact List.mem_cons_self ..
        simpa using this
      have := List.all_eq_true.mp h c hc
      simp only [Bool.not_eq_true'] at this
      simp [List.dropWhile_cons, this]
  rw [h2, List.reverse_reverse]

/-- Word/hyphen characters are never JavaScript whitespace. -/
theorem isWordOrHyphen_not_ws {c : Char} (h : isWordOrHyphen c = true) :
    isJsWhitespace c = false := by
  have hb : 45 ≤ c.toNat ∧ c.toNat ≤ 122 := by
    simp only [isWordOrHyphen, isWordChar, isAlnumChar, isAsciiLower, isAsciiUpper,
      isAsciiDigit, Bool.or_eq_true, Bool.and_eq_true, decide_eq_true_eq,
      beq_iff_eq] at h
    omega
  cases hws : isJsWhitespace c with
  | false => rfl
  | true =>
    exfalso
    simp only [isJsWhitespace, Bool.or_eq_true, Bool.and_eq_true,
      decide_eq_true_eq, beq_iff_eq] at hws
    omega

/-- On match lists whose slugs are nonempty word/hyphen strings (as the scan
produces), the source's per-match mapping and the spec's coincide. -/
theorem extractMapCode_eq_spec (cs : List Char) :
    ∀ ms : List (Nat × List Char),
      (∀ p sl, (p, sl) ∈ ms → sl ≠ [] ∧ sl.all isWordOrHyphen = true) →
      (extractMapCode cs ms).filterMap id = specMentionList cs ms := by
  intro ms
  induction ms with
  | nil => intro _; rfl
  | cons hd tl ih =>
    intro hok
    obtain ⟨p, sl⟩ := hd
    have hsl := hok p sl (List.mem_cons_self ..)
    have hnows : sl.all (fun c => !isJsWhitespace c) = true := by
      rw [List.all_eq_true] at hsl ⊢
      intro c hc
      simp [isWordOrHyphen_not_ws (hsl.2 c hc)]
    have htrim : jsTrimList sl = sl := jsTrimList_of_no_ws hnows
    have hne : (jsTrimList sl).isEmpty = false := by
      rw [htrim]
      cases sl with
      | nil => exact absurd rfl hsl.1
      | cons c cs => rfl
    simp only [extractMapCode, specMentionList, hne, Bool.false_eq_true, if_neg,
      List.filterMap_cons, id]
    rw [htrim]
    exact congrArg _ (ih (fun p sl h => hok p sl (List.mem_cons_of_mem _ h)))

/-- C1. For every input string, `extractAgentMentions` returns one entry per
non-overlapping match of the mention grammar, in left-to-right order, with the
lowercased matched slug and the separator-stripped, trimmed inter-match
fragment as prompt — i.e. it agrees with the specification's description
`specExtractAgentMentions` on all inputs; the spec's example input yields the
stated two mentions, and the empty input yields the empty sequence. -/
theorem c1_extract_agent_mentions_correct :
    (∀ input : String, extractAgentMentions input = specExtractAgentMentions input) ∧
    extractAgentMentions "Please check @sales-bot: find Q3 numbers and @ops about deploys" =
      [⟨"sales-bot", "find Q3 numbers and"⟩, ⟨"ops", "about deploys"⟩] ∧
    extractAgentMentions "" = [] := by
  refine ⟨?_, by decide, by decide⟩
  intro input
  unfold extractAgentMentions specExtractAgentMentions
  by_cases hempty : input = ""
  · subst hempty
    simp [mentionMatches, mentionScan, specMentionList]
  · rw [if_neg hempty]
    by_cases hlen : (mentionMatches input.data).length = 0
    · rw [if_pos hlen]
      rw [List.length_eq_zero] at hlen
      rw [hlen]
      rfl
    · rw [if_neg hlen]
      exact extractMapCode_eq_spec input.data (mentionMatches input.data)
        (fun p sl h => mentionScan_slug_ok _ _ _ _ _ h)

/-- C6 (failing input): the claimed separator run is "whitespace/colon/
hyphen/dash characters", but the compiled class excludes whitespace, so for
the extracted mention `@ops` with prompt `"deploy now"` (separated from the
slug by a space) the directive is never found and the text is returned
unchanged, not collapsed to `"hi @ops"`. -/
theorem c6_strip_directive_failing_input :
    extractAgentMentions "hi @ops deploy now" = [⟨"ops", "deploy now"⟩] ∧
    stripAgentDirectiveText "hi @ops deploy now" [⟨"ops", "deploy now"⟩] =
      "hi @ops deploy now" ∧
    stripAgentDirectiveText "hi @ops deploy now" [⟨"ops", "deploy now"⟩] ≠
      "hi @ops" := by
  refine ⟨by decide, by decide, by decide⟩

/-! ## Orchestrator sequencing -/

theorem handle_foldl_spec (env : MentionEnv) (ps : TurnParams) :
    ∀ (mentions : List AgentMention) (st : HandleState),
      mentions.foldl (handleStep env ps) st =
        ⟨st.events ++ eventBlocks env ps st.idx mentions,
         st.agentMessages ++ blockMessages env ps st.idx mentions,
         st.dbMessages ++ blockDbMessages env ps st.idx mentions,
         st.idx + mentions.length⟩ := by
  intro mentions
  induction mentions with
  | nil =>
    intro st
    simp [eventBlocks, blockMessages, blockDbMessages]
  | cons m ms ih =>
    intro st
    rw [List.foldl_cons, ih]
    simp only [handleStep, eventBlocks, blockMessages, blockDbMessages,
      mentionEventBlock, List.append_assoc, List.cons_append, List.nil_append,
      List.length_cons]
    congr 1
    omega

/-- `handleAgentMentions` in closed form: per-mention event blocks, messages
and rows in mention order, and a single save batch when non-empty. -/
theorem handle_result_spec (env : MentionEnv) (ps : TurnParams)
    (mentions : List AgentMention) :
    handleAgentMentions env ps mentions =
      ⟨eventBlocks env ps 0 mentions, blockMessages env ps 0 mentions,
       if mentions.isEmpty then [] else [blockDbMessages env ps 0 mentions]⟩ := by
  unfold handleAgentMentions
  cases mentions with
  | nil => simp [eventBlocks, blockMessages]
  | cons m ms =>
    rw [handle_foldl_spec]
    simp [blockDbMessages]

theorem blockMessages_length (env : MentionEnv) (ps : TurnParams) :
    ∀ (i : Nat) (ms : List AgentMention),
      (blockMessages env ps i ms).length = ms.length := by
  intro i ms
  induction ms generalizing i with
  | nil => rfl
  | cons m ms ih => simp [blockMessages, ih]

theorem blockDbMessages_length (env : MentionEnv) (ps : TurnParams) :
    ∀ (i : Nat) (ms : List AgentMention),
      (blockDbMessages env ps i ms).length = ms.length := by
  intro i ms
  induction ms generalizing i with
  | nil => rfl
  | cons m ms ih => simp [blockDbMessages, ih]

theorem eventBlocks_terminal_count (env : MentionEnv) (ps : TurnParams) :
    ∀ (i : Nat) (ms : List AgentMention),
      ((eventBlocks env ps i ms).filter isTerminalEvent).length = ms.length := by
  intro i ms
  induction ms generalizing i with
  | nil => rfl
  | cons m ms ih =>
    rw [eventBlocks, List.filter_append, List.length_append, ih]
    have hblock : ((mentionEventBlock env ps i m).filter isTerminalEvent).length = 1 := by
      cases hst : (runMention env ps m).status <;>
        simp [mentionEventBlock, isTerminalEvent, hst, MentionStatus.toEvent]
    rw [hblock, List.length_cons]
    omega

/-- C2.  `handleAgentMentions` processes the mentions strictly sequentially:
its event stream is exactly the concatenation, in mention order, of
per-mention blocks, and each block is `started`, then the message append,
then exactly one terminal status (`finished` or `error`).  In particular the
`started` event of a mention is never emitted before the terminal event of
any earlier mention. -/
theorem c2_mentions_processed_sequentially (env : MentionEnv) (ps : TurnParams)
    (mentions : List AgentMention) :
    (handleAgentMentions env ps mentions).events = eventBlocks env ps 0 mentions ∧
    ∀ (idx : Nat) (m : AgentMention),
      mentionEventBlock env ps idx m =
        [TurnEvent.agentStatus m.slug .started none none,
         TurnEvent.appendMessage (env.uuidOf idx) (runMention env ps m).messageText,
         TurnEvent.agentStatus m.slug (runMention env ps m).status.toEvent
           (some (env.uuidOf idx)) (runMention env ps m).agentName] :=
  ⟨by rw [handle_result_spec], fun idx m => rfl⟩

/-! ## Error containment and rejection paths -/

/-- C3.  When a mention's resolution or execution throws, that mention's run
ends in status `error` with the fixed body
`"Encountered an error while running @<slug>."`; the exception is caught
inside the loop (the embedding of `handleAgentMentions` is a total function,
nothing propagates), and every mention of the turn — including every
subsequent one — still produces its message and exactly one terminal status
event. -/
theorem c3_mention_error_contained (env : MentionEnv) (ps : TurnParams)
    (mentions : List AgentMention) (m : AgentMention) (hm : m ∈ mentions)
    (hr : mentionRaises env ps m = true) :
    (runMention env ps m).status = .error ∧
    (runMention env ps m).responseBody =
      "Encountered an error while running @" ++ m.slug ++ "." ∧
    (handleAgentMentions env ps mentions).messages.length = mentions.length ∧
    ((handleAgentMentions env ps mentions).events.filter isTerminalEvent).length =
      mentions.length := by
  have key : (runMention env ps m).status = .error ∧
      (runMention env ps m).responseBody =
        "Encountered an error while running @" ++ m.slug ++ "." := by
    unfold mentionRaises at hr
    cases hres : env.getAgentBySlug m.slug with
    | error e => simp [runMention, hres]
    | ok o =>
      rw [hres] at hr
      cases o with
      | none => simp at hr
      | some rec =>
        simp only at hr
        simp only [runMention, hres]
        by_cases hacc : (!rec.isPublic && !(rec.userId == ps.userId)) = true
        · rw [if_pos hacc] at hr
          simp at hr
        · rw [if_neg hacc] at hr
          rw [if_neg hacc]
          cases hgen : env.generateText (mentionGenCall env ps m rec) with
          | error e => exact ⟨rfl, rfl⟩
          | ok t => rw [hgen] at hr; simp at hr
  refine ⟨key.1, key.2, ?_, ?_⟩
  · rw [handle_result_spec]
    exact blockMessages_length env ps 0 mentions
  · rw [handle_result_spec]
    exact eventBlocks_terminal_count env ps 0 mentions

theorem c3_mention_error_contained_witness :
    (⟨"ops", "ship"⟩ : AgentMention) ∈ [(⟨"ops", "ship"⟩ : AgentMention)] ∧
    mentionRaises envGenError sampleParams ⟨"ops", "ship"⟩ = true ∧
    (runMention envGenError sampleParams ⟨"ops", "ship"⟩).status = .error ∧
    (runMention envGenError sampleParams ⟨"ops", "ship"⟩).responseBody =
      "Encountered an error while running @ops." := by
  refine ⟨List.mem_cons_self _ _, by decide, ?_, ?_⟩
  · exact (c3_mention_error_contained envGenError sampleParams
      [⟨"ops", "ship"⟩] ⟨"ops", "ship"⟩ (List.mem_cons_self _ _) (by decide)).1
  · exact ((c3_mention_error_contained envGenError sampleParams
      [⟨"ops", "ship"⟩] ⟨"ops", "ship"⟩ (List.mem_cons_self _ _) (by decide)).2.1).trans
      (by decide)

/-- C4.  The two rejection paths are `finished` results, not errors: a
missing record yields the "not available" body, which contains the literal
slug; a private record owned by someone else yields the "no access" body. -/
theorem c4_rejection_paths_finished (env : MentionEnv) (ps : TurnParams)
    (m : AgentMention) :
    (env.getAgentBySlug m.slug = .ok none →
      (runMention env ps m).status = .finished ∧
      (runMention env ps m).responseBody =
        "No agent named @" ++ m.slug ++ " is available." ∧
      ∃ pre post, (runMention env ps m).responseBody.data =
        pre ++ m.slug.data ++ post) ∧
    (∀ rec : AgentRecord, env.getAgentBySlug m.slug = .ok (some rec) →
      rec.isPublic = false → rec.userId ≠ ps.userId →
      (runMention env ps m).status = .finished ∧
      (runMention env ps m).responseBody =
        "You do not have access to @" ++ m.slug ++
          ". Ask the owner to make it public or share it with you.") := by
  constructor
  · intro h
    have hbody : (runMention env ps m).responseBody =
        "No agent named @" ++ m.slug ++ " is available." := by
      simp [runMention, h]
    refine ⟨by simp [runMention, h], hbody,
      "No agent named @".data, " is available.".data, ?_⟩
    rw [hbody]
    simp [String.data_append]
  · intro rec h hpub huser
    have hcond : (!rec.isPublic && !(rec.userId == ps.userId)) = true := by
      simp [hpub, huser]
    exact ⟨by simp [runMention, h, hcond], by simp [runMention, h, hcond]⟩

theorem c4_rejection_paths_finished_witness :
    (envResolve.getAgentBySlug "ghost" = .ok none ∧
     (runMention envResolve sampleParams ⟨"ghost", ""⟩).status = .finished ∧
     (runMention envResolve sampleParams ⟨"ghost", ""⟩).responseBody =
       "No agent named @ghost is available.") ∧
    (envResolve.getAgentBySlug "priv" = .ok (some privateAgent) ∧
     privateAgent.isPublic = false ∧ privateAgent.userId ≠ sampleParams.userId ∧
     (runMention envResolve sampleParams ⟨"priv", ""⟩).status = .finished ∧
     (runMention envResolve sampleParams ⟨"priv", ""⟩).responseBody =
       "You do not have access to @priv. Ask the owner to make it public or share it with you.") := by
  refine ⟨⟨by decide, ?_, ?_⟩, ⟨by decide, by decide, by decide, ?_, ?_⟩⟩
  · exact ((c4_rejection_paths_finished envResolve sampleParams ⟨"ghost", ""⟩).1
      (by decide)).1
  · exact (((c4_rejection_paths_finished envResolve sampleParams ⟨"ghost", ""⟩).1
      (by decide)).2.1).trans (by decide)
  · exact ((c4_rejection_paths_finished envResolve sampleParams ⟨"priv", ""⟩).2
      privateAgent (by decide) (by decide) (by decide)).1
  · exact (((c4_rejection_paths_finished envResolve sampleParams ⟨"priv", ""⟩).2
      privateAgent (by decide) (by decide) (by decide)).2).trans (by decide)

/-! ## Persistence shape and tool-set invariants -/

/-- C7 (counterexample): a completed turn with one mention appends to the
message store three times — the user write, the mention batch, and the
stream `onFinish` write of the primary turn's streamed messages — not
exactly twice as claimed. -/
theorem c7_two_writes_counterexample :
    (postMessageSaveBatches envResolve sampleParams
        ⟨"u-1", "chat-1", "hi @ops ship it", "t0"⟩
        (some [⟨"ops", "ship"⟩])
        [⟨"p-1", "chat-1", "primary answer", "t1"⟩]).length ≠ 2 ∧
    (postMessageSaveBatches envResolve sampleParams
        ⟨"u-1", "chat-1", "hi @ops ship it", "t0"⟩
        (some [⟨"ops", "ship"⟩])
        [⟨"p-1", "chat-1", "primary answer", "t1"⟩]).length = 3 := by
  exact ⟨by decide, by decide⟩

/-- C7 (amended).  A completed turn's `saveMessages` calls are, in order: one
write with the user's incoming message (before any mention runs); when
mentions are present, exactly one batched write holding all mention-produced
rows (one per mention, never one write per mention); and one `onFinish`
write with the primary turn's streamed messages — so three calls with
mentions, two without. -/
theorem c7_save_batches_amended (env : MentionEnv) (ps : TurnParams)
    (userMsg : OrchDbMessage) (rawMentions : Option (List AgentMention))
    (primaryMessages : List OrchDbMessage) :
    postMessageSaveBatches env ps userMsg rawMentions primaryMessages =
      [[userMsg]] ++
        (if (normalizeAgentMentions rawMentions).isEmpty then []
         else [blockDbMessages env ps 0 (normalizeAgentMentions rawMentions)]) ++
        [primaryMessages] ∧
    (blockDbMessages env ps 0 (normalizeAgentMentions rawMentions)).length =
      (normalizeAgentMentions rawMentions).length ∧
    (postMessageSaveBatches env ps userMsg rawMentions primaryMessages).length =
      (if (normalizeAgentMentions rawMentions).isEmpty then 2 else 3) := by
  refine ⟨?_, blockDbMessages_length env ps 0 _, ?_⟩
  · unfold postMessageSaveBatches
    rw [handle_result_spec]
    cases normalizeAgentMentions rawMentions with
    | nil => simp
    | cons a l => simp
  · unfold postMessageSaveBatches
    rw [handle_result_spec]
    cases normalizeAgentMentions rawMentions with
    | nil => simp
    | cons a l => simp

theorem nonConfig_subset_tools (vsid : Option String) (ns : String) (inc : Bool) :
    ∀ t, t ∈ (createToolRegistry vsid ns inc).nonConfigurableToolIds →
      t ∈ (createToolRegistry vsid ns inc).tools := by
  intro t ht
  simp only [createToolRegistry] at ht ⊢
  by_cases hv : optTruthy vsid = true
  · rw [if_pos hv] at ht
    by_cases hf : (ns == "openai" && optTruthy vsid) = true
    · rw [if_pos hf] at ht
      simp only [if_pos hf]
      rcases List.mem_cons.mp ht with h1 | h1
      · subst h1; simp
      · have : t = "file_search" := by simpa using h1
        subst this; simp
    · rw [if_neg hf] at ht
      have : t = "get_file_contents" := by simpa using ht
      subst this; simp
  · rw [if_neg hv] at ht
    simp at ht

/-- C8.  Pinned (non-configurable) tools survive both active-tool filters —
the primary turn's and the agent run's — for every caller-supplied
allow-list; and whenever a knowledge-store id is present, the pinned set
contains `get_file_contents`, and also `file_search` when that tool was
registered. -/
theorem c8_pinned_tools_always_active (vsid : Option String) (ns : String)
    (inc : Bool) (req : Option (List String)) :
    (∀ t, t ∈ (createToolRegistry vsid ns inc).nonConfigurableToolIds →
       t ∈ primaryActiveTools (createToolRegistry vsid ns inc) req ∧
       t ∈ agentActiveTools (createToolRegistry vsid ns inc) req) ∧
    (optTruthy vsid = true →
       "get_file_contents" ∈ (createToolRegistry vsid ns inc).nonConfigurableToolIds ∧
       ((createToolRegistry vsid ns inc).fileSearchRegistered = true →
        "file_search" ∈ (createToolRegistry vsid ns inc).nonConfigurableToolIds)) := by
  constructor
  · intro t ht
    have htl := nonConfig_subset_tools vsid ns inc t ht
    have hcontains : (createToolRegistry vsid ns inc).nonConfigurableToolIds.contains t = true := by
      simpa using ht
    constructor
    · unfold primaryActiveTools
      rw [List.mem_filter]
      exact ⟨htl, by simp only [Bool.or_eq_true]; exact Or.inr hcontains⟩
    · unfold agentActiveTools
      split
      · exact htl
      · unfold agentFilteredTools
        rw [List.mem_filter]
        exact ⟨htl, by simp only [Bool.or_eq_true]; exact Or.inr hcontains⟩
  · intro hv
    constructor
    · simp [createToolRegistry, hv]
    · intro hf
      simp only [createToolRegistry] at hf
      rw [Bool.and_eq_true] at hf
      simp [createToolRegistry, hv, hf.1]

theorem c8_pinned_tools_always_active_witness :
    "get_file_contents" ∈
      (createToolRegistry (some "vs-1") "openai" true).nonConfigurableToolIds ∧
    "file_search" ∈
      (createToolRegistry (some "vs-1") "openai" true).nonConfigurableToolIds ∧
    "get_file_contents" ∈ primaryActiveTools (createToolRegistry (some "vs-1") "openai" true)
      (some ["requestSuggestions"]) ∧
    "file_search" ∈ agentActiveTools (createToolRegistry (some "vs-1") "openai" true)
      (some ["requestSuggestions"]) := by
  refine ⟨?_, ?_, ?_, ?_⟩
  · exact ((c8_pinned_tools_always_active (some "vs-1") "openai" true
      (some ["requestSuggestions"])).2 (by decide)).1
  · exact ((c8_pinned_tools_always_active (some "vs-1") "openai" true
      (some ["requestSuggestions"])).2 (by decide)).2 (by decide)
  · exact ((c8_pinned_tools_always_active (some "vs-1") "openai" true
      (some ["requestSuggestions"])).1 "get_file_contents" (by decide)).1
  · exact ((c8_pinned_tools_always_active (some "vs-1") "openai" true
      (some ["requestSuggestions"])).1 "file_search" (by decide)).2

/-- C9.  A mention resolving to a *public* agent owned by a different user
runs without its knowledge store: the derived vector-store id is `none` even
if the record carries one, no knowledge files are listed for the system
prompt, `file_search` is not registered, and nothing is pinned. -/
theorem c9_foreign_public_agent_no_knowledge (env : MentionEnv) (ps : TurnParams)
    (m : AgentMention) (rec : AgentRecord)
    (hres : env.getAgentBySlug m.slug = .ok (some rec))
    (hpub : rec.isPublic = true) (hown : rec.userId ≠ ps.userId) :
    (runMention env ps m).derivedVectorStoreId = none ∧
    (runMention env ps m).knowledgeFiles = [] ∧
    (runMention env ps m).registry = some (mentionRegistry env ps rec) ∧
    "file_search" ∉ (mentionRegistry env ps rec).tools ∧
    (mentionRegistry env ps rec).nonConfigurableToolIds = [] ∧
    (∀ gc, (runMention env ps m).execCall = some gc →
      gc.promptContext.knowledgeFiles = []) := by
  have hu : (rec.userId == ps.userId) = false := by simp [hown]
  have hderived : derivedAgentVectorStoreId rec ps.userId = none := by
    simp [derivedAgentVectorStoreId, hu]
  have hk : mentionKnowledgeFiles env ps.userId rec = [] := by
    simp [mentionKnowledgeFiles, hderived]
  have hcond : (!rec.isPublic && !(rec.userId == ps.userId)) = false := by
    simp [hpub]
  have hruns : (runMention env ps m).derivedVectorStoreId = none ∧
      (runMention env ps m).knowledgeFiles = [] ∧
      (runMention env ps m).registry = some (mentionRegistry env ps rec) ∧
      (runMention env ps m).execCall = some (mentionGenCall env ps m rec) := by
    cases hgen : env.generateText (mentionGenCall env ps m rec) with
    | error e =>
      refine ⟨?_, ?_, ?_, ?_⟩ <;> simp [runMention, hres, hcond, hgen, hderived, hk]
    | ok t =>
      refine ⟨?_, ?_, ?_, ?_⟩ <;> simp [runMention, hres, hcond, hgen, hderived, hk]
  have hfs : "file_search" ∉ (mentionRegistry env ps rec).tools := by
    unfold mentionRegistry
    rw [hderived]
    unfold createToolRegistry
    simp [optTruthy, baseToolNames]
  have hnc : (mentionRegistry env ps rec).nonConfigurableToolIds = [] := by
    unfold mentionRegistry
    rw [hderived]
    unfold createToolRegistry
    simp [optTruthy]
  refine ⟨hruns.1, hruns.2.1, hruns.2.2.1, hfs, hnc, ?_⟩
  intro gc hgc
  rw [hruns.2.2.2] at hgc
  injection hgc with h
  subst h
  simp [mentionGenCall, hk]

theorem c9_foreign_public_agent_no_knowledge_witness :
    envForeign.getAgentBySlug "docs" = .ok (some foreignPublicAgent) ∧
    foreignPublicAgent.isPublic = true ∧
    foreignPublicAgent.userId ≠ sampleParams.userId ∧
    foreignPublicAgent.vectorStoreId = some "vs-9" ∧
    (runMention envForeign sampleParams ⟨"docs", "look this up"⟩).derivedVectorStoreId = none ∧
    (runMention envForeign sampleParams ⟨"docs", "look this up"⟩).knowledgeFiles = [] := by
  refine ⟨by decide, by decide, by decide, by decide, ?_, ?_⟩
  · exact (c9_foreign_public_agent_no_knowledge envForeign sampleParams
      ⟨"docs", "look this up"⟩ foreignPublicAgent (by decide) (by decide) (by decide)).1
  · exact (c9_foreign_public_agent_no_knowledge envForeign sampleParams
      ⟨"docs", "look this up"⟩ foreignPublicAgent (by decide) (by decide) (by decide)).2.1

/-- C10.  The agent run's allow-list can never produce an empty active-tool
set: an absent or empty allow-list, or one whose filter intersection with
the available-plus-pinned tools is empty, yields every available tool, and
the active set is always non-empty. -/
theorem c10_agent_allow_list_never_empty (vsid : Option String) (ns : String)
    (inc : Bool) (req : Option (List String)) :
    ((req = none ∨ req = some [] ∨
        agentFilteredTools (createToolRegistry vsid ns inc) req = []) →
      agentActiveTools (createToolRegistry vsid ns inc) req =
        (createToolRegistry vsid ns inc).tools) ∧
    agentActiveTools (createToolRegistry vsid ns inc) req ≠ [] := by
  have htools : (createToolRegistry vsid ns inc).tools ≠ [] := by
    simp [createToolRegistry, baseToolNames]
  have hfull : agentRequestedToolSet (createToolRegistry vsid ns inc) req =
      (createToolRegistry vsid ns inc).tools →
      agentFilteredTools (createToolRegistry vsid ns inc) req =
        (createToolRegistry vsid ns inc).tools := by
    intro hset
    unfold agentFilteredTools
    rw [hset]
    refine List.filter_eq_self.mpr ?_
    intro a ha
    simp only [Bool.or_eq_true]
    exact Or.inl (by simpa using ha)
  constructor
  · intro h
    rcases h with h | h | h
    · have hfilt := hfull (by rw [h]; rfl)
      unfold agentActiveTools
      rw [hfilt]
      split <;> rfl
    · have hfilt := hfull (by rw [h]; rfl)
      unfold agentActiveTools
      rw [hfilt]
      split <;> rfl
    · unfold agentActiveTools
      rw [h]
      rfl
  · unfold agentActiveTools
    split
    · exact htools
    · rename_i hlen
      intro hnil
      exact hlen (by rw [hnil]; rfl)

theorem c10_agent_allow_list_never_empty_witness :
    agentFilteredTools (createToolRegistry none "xai" false) (some ["no-such-tool"]) = [] ∧
    agentActiveTools (createToolRegistry none "xai" false) (some ["no-such-tool"]) =
      (createToolRegistry none "xai" false).tools ∧
    agentActiveTools (createToolRegistry none "xai" false) (some ["no-such-tool"]) ≠ [] := by
  refine ⟨by decide, ?_, ?_⟩
  · exact (c10_agent_allow_list_never_empty none "xai" false (some ["no-such-tool"])).1
      (Or.inr (Or.inr (by decide)))
  · exact (c10_agent_allow_list_never_empty none "xai" false (some ["no-such-tool"])).2

/-! ## Heading round-trip (C5) -/

theorem string_data_ext {s t : String} (h : s.data = t.data) : s = t := by
  cases s
  cases t
  exact congrArg String.mk h

theorem string_mk_data (s : String) : String.mk s.data = s := by
  cases s
  rfl

theorem stripLitCI_self_append :
    ∀ (xs rest : List Char), stripLitCI xs (xs ++ rest) = some rest := by
  intro xs
  induction xs with
  | nil => intro rest; rfl
  | cons p ps ih => intro rest; simp [stripLitCI, ciEq, ih]

theorem takeWhile_append_of_all (p : Char → Bool) :
    ∀ (xs ys : List Char), xs.all p = true →
      (xs ++ ys).takeWhile p = xs ++ ys.takeWhile p := by
  intro xs
  induction xs with
  | nil => intro ys _; rfl
  | cons x xs ih =>
    intro ys h
    rw [List.all_cons, Bool.and_eq_true] at h
    simp [List.takeWhile_cons, h.1, ih ys h.2]

theorem lowerWordOrHyphen_isWordOrHyphen {c : Char}
    (h : lowerWordOrHyphen c = true) : isWordOrHyphen c = true := by
  simp only [lowerWordOrHyphen, Bool.or_eq_true] at h
  simp only [isWordOrHyphen, isWordChar, isAlnumChar, Bool.or_eq_true]
  tauto

theorem lowerWordOrHyphen_toLower {c : Char}
    (h : lowerWordOrHyphen c = true) : toLowerChar c = c := by
  cases hu : isAsciiUpper c with
  | false => simp [toLowerChar, hu]
  | true =>
    exfalso
    simp only [isAsciiUpper, Bool.and_eq_true, decide_eq_true_eq] at hu
    simp only [lowerWordOrHyphen, isAsciiLower, isAsciiDigit, Bool.or_eq_true,
      Bool.and_eq_true, decide_eq_true_eq, beq_iff_eq] at h
    omega

theorem lowerHead_alnum {c : Char}
    (h : (isAsciiLower c || isAsciiDigit c) = true) : isAlnumChar c = true := by
  simp only [Bool.or_eq_true] at h
  simp only [isAlnumChar, Bool.or_eq_true]
  tauto

theorem lowerHead_toLower {c : Char}
    (h : (isAsciiLower c || isAsciiDigit c) = true) : toLowerChar c = c := by
  apply lowerWordOrHyphen_toLower
  simp only [lowerWordOrHyphen, Bool.or_eq_true] at h ⊢
  tauto

theorem jsTrimStart_hash (X : List Char) :
    jsTrimStartList ('#' :: X) = '#' :: X := by
  unfold jsTrimStartList
  rw [List.dropWhile_cons, if_neg (by decide)]

theorem parseHeading_std (Y : List Char) :
    parseHeading ('#' :: '#' :: '#' :: ' ' :: (responseFromLit ++ Y)) =
      parseSlugRest Y := by
  have hrf : responseFromLit = 'R' :: "esponse from @".data := by decide
  have h1 : ((' ' :: (responseFromLit ++ Y)).takeWhile isJsWhitespace).isEmpty = false := by
    rw [List.takeWhile_cons, if_pos (by decide)]
    rfl
  have h2 : (' ' :: (responseFromLit ++ Y)).dropWhile isJsWhitespace =
      responseFromLit ++ Y := by
    rw [List.dropWhile_cons, if_pos (by decide), hrf, List.cons_append,
      List.dropWhile_cons, if_neg (by decide), ← List.cons_append, ← hrf]
  simp only [parseHeading]
  unfold parseAfterHash
  rw [h1, h2, stripLitCI_self_append]
  rfl

theorem parseSlugRest_split (c : Char) (cs rest2 : List Char)
    (hc1 : (isAsciiLower c || isAsciiDigit c) = true)
    (hc2 : cs.all lowerWordOrHyphen = true)
    (hstop : rest2.takeWhile isWordOrHyphen = []) :
    parseSlugRest (c :: (cs ++ rest2)) =
      some ⟨String.mk (c :: cs),
            (parseNameGroup rest2).1.map String.mk,
            String.mk (jsTrimStartList (parseNameGroup rest2).2)⟩ := by
  have hcall : cs.all isWordOrHyphen = true := by
    rw [List.all_eq_true] at hc2 ⊢
    intro x hx
    exact lowerWordOrHyphen_isWordOrHyphen (hc2 x hx)
  have htake : (cs ++ rest2).takeWhile isWordOrHyphen = cs := by
    rw [takeWhile_append_of_all _ cs rest2 hcall, hstop, List.append_nil]
  have hdrop : (cs ++ rest2).drop cs.length = rest2 := List.drop_left cs rest2
  have hmap : (c :: cs).map toLowerChar = c :: cs := by
    have hall : ∀ a ∈ (c :: cs), toLowerChar a = id a := by
      intro a ha
      rcases List.mem_cons.mp ha with h | h
      · subst h; exact lowerHead_toLower hc1
      · exact lowerWordOrHyphen_toLower (List.all_eq_true.mp hc2 a h)
    rw [List.map_congr_left hall, List.map_id]
  simp only [parseSlugRest, lowerHead_alnum hc1, if_true, htake, hdrop, hmap]

theorem parse_built_no_name (slug body : String) (hs : isNormalizedSlug slug = true) :
    parseAgentResponseText ("### Response from @" ++ slug ++ "\n\n" ++ body) =
      some ⟨slug, none, String.mk (jsTrimStartList body.data)⟩ := by
  obtain ⟨c, cs, hsd⟩ : ∃ c cs, slug.data = c :: cs := by
    cases h : slug.data with
    | nil =>
      exfalso
      have h0 := hs
      unfold isNormalizedSlug at h0
      rw [h] at h0
      simp at h0
    | cons a l => exact ⟨a, l, rfl⟩
  have hs' : ((isAsciiLower c || isAsciiDigit c) && cs.all lowerWordOrHyphen) = true := by
    have h0 := hs
    unfold isNormalizedSlug at h0
    rw [hsd] at h0
    exact h0
  rw [Bool.and_eq_true] at hs'
  have h1 : "### Response from @".data = '#' :: '#' :: '#' :: ' ' :: responseFromLit := by
    decide
  have h2 : "\n\n".data = ['\n', '\n'] := by decide
  have hdata : ("### Response from @" ++ slug ++ "\n\n" ++ body).data =
      '#' :: '#' :: '#' :: ' ' ::
        (responseFromLit ++ (c :: (cs ++ ('\n' :: '\n' :: body.data)))) := by
    simp only [String.data_append, h1, h2, hsd]
    simp [List.append_assoc, responseFromLit]
  have hne : ("### Response from @" ++ slug ++ "\n\n" ++ body) ≠ "" := by
    intro h
    have hd := congrArg String.data h
    rw [hdata] at hd
    simp at hd
  have hstop : ('\n' :: '\n' :: body.data).takeWhile isWordOrHyphen = [] := by
    rw [List.takeWhile_cons, if_neg (by decide)]
  have htrimnl : jsTrimStartList ('\n' :: '\n' :: body.data) = jsTrimStartList body.data := by
    unfold jsTrimStartList
    rw [List.dropWhile_cons, if_pos (by decide), List.dropWhile_cons, if_pos (by decide)]
  unfold parseAgentResponseText
  rw [if_neg hne, hdata, jsTrimStart_hash, parseHeading_std,
    parseSlugRest_split c cs _ hs'.1 hs'.2 hstop,
    show parseNameGroup ('\n' :: '\n' :: body.data) =
      (none, '\n' :: '\n' :: body.data) from rfl]
  rw [htrimnl, ← hsd, string_mk_data]
  rfl

theorem parse_built_with_name (slug nm body : String)
    (hs : isNormalizedSlug slug = true) (hn : isSafeAgentName nm = true) :
    parseAgentResponseText
        ("### Response from @" ++ slug ++ " (" ++ nm ++ ")" ++ "\n\n" ++ body) =
      some ⟨slug, some nm, String.mk (jsTrimStartList body.data)⟩ := by
  obtain ⟨c, cs, hsd⟩ : ∃ c cs, slug.data = c :: cs := by
    cases h : slug.data with
    | nil =>
      exfalso
      have h0 := hs
      unfold isNormalizedSlug at h0
      rw [h] at h0
      simp at h0
    | cons a l => exact ⟨a, l, rfl⟩
  have hs' : ((isAsciiLower c || isAsciiDigit c) && cs.all lowerWordOrHyphen) = true := by
    have h0 := hs
    unfold isNormalizedSlug at h0
    rw [hsd] at h0
    exact h0
  rw [Bool.and_eq_true] at hs'
  obtain ⟨c0, ns, hnd⟩ : ∃ c0 ns, nm.data = c0 :: ns := by
    cases h : nm.data with
    | nil =>
      exfalso
      have h0 := hn
      unfold isSafeAgentName at h0
      rw [Bool.and_eq_true] at h0
      have hemp : nm = "" := string_data_ext (by rw [h])
      rw [hemp] at h0
      simp at h0
    | cons a l => exact ⟨a, l, rfl⟩
  have hnall : (c0 :: ns).all (fun ch => isDotChar ch && !(ch == ')')) = true := by
    have h0 := hn
    unfold isSafeAgentName at h0
    rw [Bool.and_eq_true] at h0
    have h02 := h0.2
    rw [hnd] at h02
    exact h02
  rw [List.all_cons, Bool.and_eq_true] at hnall
  have hdot0 : isDotChar c0 = true := by
    have := hnall.1
    rw [Bool.and_eq_true] at this
    exact this.1
  have hns_ne_paren : ns.all (fun ch => !(ch == ')')) = true := by
    rw [List.all_eq_true] at hnall ⊢
    intro x hx
    have := hnall.2 x hx
    rw [Bool.and_eq_true] at this
    exact this.2
  have hns_dot : ns.all isDotChar = true := by
    have hnall2 := hnall.2
    rw [List.all_eq_true] at hnall2 ⊢
    intro x hx
    have := hnall2 x hx
    rw [Bool.and_eq_true] at this
    exact this.1
  have h1 : "### Response from @".data = '#' :: '#' :: '#' :: ' ' :: responseFromLit := by
    decide
  have h2 : "\n\n".data = ['\n', '\n'] := by decide
  have hdata : ("### Response from @" ++ slug ++ " (" ++ nm ++ ")" ++ "\n\n" ++ body).data =
      '#' :: '#' :: '#' :: ' ' ::
        (responseFromLit ++
          (c :: (cs ++ (' ' :: '(' ::
            (c0 :: (ns ++ (')' :: '\n' :: '\n' :: body.data))))))) := by
    simp only [String.data_append, h1, h2, hsd, hnd,
      show " (".data = [' ', '('] from by decide,
      show ")".data = [')'] from by decide]
    simp [List.append_assoc, responseFromLit]
  have hne : ("### Response from @" ++ slug ++ " (" ++ nm ++ ")" ++ "\n\n" ++ body) ≠ "" := by
    intro h
    have hd := congrArg String.data h
    rw [hdata] at hd
    simp at hd
  have hstop : (' ' :: '(' ::
      (c0 :: (ns ++ (')' :: '\n' :: '\n' :: body.data)))).takeWhile isWordOrHyphen = [] := by
    rw [List.takeWhile_cons, if_neg (by decide)]
  have hseg : (ns ++ (')' :: '\n' :: '\n' :: body.data)).takeWhile
      (fun ch => !(ch == ')')) = ns := by
    rw [takeWhile_append_of_all _ ns _ hns_ne_paren, List.takeWhile_cons,
      if_neg (by decide), List.append_nil]
  have hng : parseNameGroup (' ' :: '(' ::
      (c0 :: (ns ++ (')' :: '\n' :: '\n' :: body.data)))) =
      (some (c0 :: ns), '\n' :: '\n' :: body.data) := by
    simp only [parseNameGroup]
    rw [hseg, hdot0, hns_dot, List.drop_left]
    simp
  have htrimnl : jsTrimStartList ('\n' :: '\n' :: body.data) =
      jsTrimStartList body.data := by
    unfold jsTrimStartList
    rw [List.dropWhile_cons, if_pos (by decide), List.dropWhile_cons, if_pos (by decide)]
  unfold parseAgentResponseText
  rw [if_neg hne, hdata, jsTrimStart_hash, parseHeading_std,
    parseSlugRest_split c cs _ hs'.1 hs'.2 hstop, hng]
  rw [htrimnl, ← hsd, string_mk_data, ← hnd, string_mk_data]
  rfl

theorem runMention_slug (env : MentionEnv) (ps : TurnParams) (m : AgentMention) :
    (runMention env ps m).slug = m.slug := by
  cases hres : env.getAgentBySlug m.slug with
  | error e => simp [runMention, hres]
  | ok o =>
    cases o with
    | none => simp [runMention, hres]
    | some rec =>
      by_cases hacc : (!rec.isPublic && !(rec.userId == ps.userId)) = true
      · simp [runMention, hres, hacc]
      · cases hgen : env.generateText (mentionGenCall env ps m rec) with
        | error e => simp [runMention, hres, hacc, hgen]
        | ok t => simp [runMention, hres, hacc, hgen]

theorem runMention_messageText (env : MentionEnv) (ps : TurnParams) (m : AgentMention) :
    (runMention env ps m).messageText =
      "### Response from @" ++ m.slug ++
        headerSuffix (runMention env ps m).agentName ++
        "\n\n" ++ (runMention env ps m).responseBody := by
  unfold MentionRun.messageText MentionRun.responseHeader mentionHeader
  rw [runMention_slug]
  cases (runMention env ps m).agentName with
  | none =>
    apply string_data_ext
    simp only [String.data_append, headerSuffix]
    simp [show "### Response from ".data =
      '#' :: '#' :: '#' :: ' ' :: responseFromLit.dropLast from by decide,
      show "### Response from @".data =
      '#' :: '#' :: '#' :: ' ' :: responseFromLit from by decide,
      responseFromLit, List.append_assoc]
  | some n =>
    by_cases hne : n == ""
    · apply string_data_ext
      simp only [String.data_append, headerSuffix]
      simp [hne, show "### Response from ".data =
        '#' :: '#' :: '#' :: ' ' :: responseFromLit.dropLast from by decide,
        show "### Response from @".data =
        '#' :: '#' :: '#' :: ' ' :: responseFromLit from by decide,
        responseFromLit, List.append_assoc]
    · apply string_data_ext
      simp only [String.data_append, headerSuffix]
      simp [hne, show "### Response from ".data =
        '#' :: '#' :: '#' :: ' ' :: responseFromLit.dropLast from by decide,
        show "### Response from @".data =
        '#' :: '#' :: '#' :: ' ' :: responseFromLit from by decide,
        responseFromLit, List.append_assoc]

/-- C5 (amended).  For every mention run whose slug is POST-normalised and
whose resolved agent name (when any) is empty or safe — non-empty, containing
no `)` and no line terminator — parsing the orchestrator-built message text
recovers exactly the run's slug and its (truthy) agent name. -/
theorem c5_heading_round_trip (env : MentionEnv) (ps : TurnParams) (m : AgentMention)
    (hs : isNormalizedSlug m.slug = true)
    (hname : ∀ n, (runMention env ps m).agentName = some n →
      n = "" ∨ isSafeAgentName n = true) :
    (parseAgentResponseText (runMention env ps m).messageText).map
        (fun r => (r.slug, r.agentName)) =
      some (m.slug,
        match (runMention env ps m).agentName with
        | some n => if n = "" then none else some n
        | none => none) := by
  rw [runMention_messageText]
  cases han : (runMention env ps m).agentName with
  | none =>
    rw [show headerSuffix none = "" from rfl]
    have halign : "### Response from @" ++ m.slug ++ "" ++ "\n\n" ++
        (runMention env ps m).responseBody =
        "### Response from @" ++ m.slug ++ "\n\n" ++
          (runMention env ps m).responseBody := by
      apply string_data_ext
      simp [String.data_append]
    rw [halign, parse_built_no_name _ _ hs]
    rfl
  | some n =>
    by_cases hne : n = ""
    · subst hne
      rw [show headerSuffix (some "") = "" from rfl]
      have halign : "### Response from @" ++ m.slug ++ "" ++ "\n\n" ++
          (runMention env ps m).responseBody =
          "### Response from @" ++ m.slug ++ "\n\n" ++
            (runMention env ps m).responseBody := by
        apply string_data_ext
        simp [String.data_append]
      rw [halign, parse_built_no_name _ _ hs]
      rfl
    · have hsafe : isSafeAgentName n = true := by
        rcases hname n han with h | h
        · exact absurd h hne
        · exact h
      have hif : headerSuffix (some n) = " (" ++ n ++ ")" := by
        simp [headerSuffix, hne]
      rw [hif]
      have halign : "### Response from @" ++ m.slug ++ (" (" ++ n ++ ")") ++ "\n\n" ++
          (runMention env ps m).responseBody =
          "### Response from @" ++ m.slug ++ " (" ++ n ++ ")" ++ "\n\n" ++
            (runMention env ps m).responseBody := by
        apply string_data_ext
        simp [String.data_append]
      rw [halign, parse_built_with_name _ _ _ hs hsafe]
      simp [hne]

theorem c5_heading_round_trip_witness :
    isNormalizedSlug "ops" = true ∧
    (parseAgentResponseText (runMention envNamed sampleParams ⟨"ops", "go"⟩).messageText).map
        (fun r => (r.slug, r.agentName)) = some ("ops", some "Ops Bot") := by
  refine ⟨by decide, ?_⟩
  have h := c5_heading_round_trip envNamed sampleParams ⟨"ops", "go"⟩ (by decide) ?_
  · exact h.trans (by decide)
  · intro n hn
    right
    have hr : (runMention envNamed sampleParams ⟨"ops", "go"⟩).agentName =
        some "Ops Bot" := by decide
    rw [hr] at hn
    injection hn with h2
    subst h2
    decide

/-- C5 (counterexample): for the agent name `"Ops :)"` the lazy `(.+?)` of
the heading parser stops at the first `)`, recovering `"Ops :"` instead of
the agent's name, so the round-trip fails as universally claimed. -/
theorem c5_heading_round_trip_counterexample :
    (runMention envParenName sampleParams ⟨"ops", ""⟩).agentName = some "Ops :)" ∧
    (parseAgentResponseText
        (runMention envParenName sampleParams ⟨"ops", ""⟩).messageText).map
        (fun r => r.agentName) = some (some "Ops :") ∧
    (parseAgentResponseText
        (runMention envParenName sampleParams ⟨"ops", ""⟩).messageText).map
        (fun r => r.agentName) ≠
      some ((runMention envParenName sampleParams ⟨"ops", ""⟩).agentName) := by
  exact ⟨by decide, by decide, by decide⟩
